import Mathlib

/-!
Shallow embedding of the ink! contract `options_and_futures` (src/options_and_futures/lib.rs),
a voter registry with reputation voting.

Modelling conventions:
- `AccountId` is an opaque comparable handle, modelled as `Nat`.
- `ink::storage::Mapping<AccountId, Voter>` is modelled as an association list with
  key-unique insert (`mapInsert` replaces an existing binding in place) and `mapRemove`.
- `u128` is `Nat`, `i128` is `Int`; the i128 bounds are explicit where overflow matters.
- cargo contract compiles ink! contracts with overflow checks enabled, so overflowing
  arithmetic (`votes.abs()` at `i128::MIN`, `reputation += votes` past the i128 bounds)
  traps and aborts the call.  A trap is modelled as `none`; `vote` therefore returns
  `Option (Except Error Unit × OptionsAndFutures)` where `none` is the trap, and the
  other operations, whose arithmetic cannot overflow, return `Except Error Unit`
  paired with the post state.
- Every `#[ink(message)]` takes the implicit `self.env().caller()`; it is passed as an
  explicit first argument `caller` here.
-/

set_option maxRecDepth 8000

deriving instance DecidableEq for Except

abbrev AccountId := Nat

/-- Lower bound of `i128`: `-2^127`. -/
def i128Min : Int := -(2 ^ 127)

/-- Upper bound of `i128`: `2^127 - 1`. -/
def i128Max : Int := 2 ^ 127 - 1

/-- The four error kinds of the contract. -/
inductive Error where
  | OnlyOwnerFunction
  | UnregisteredVoter
  | VoterAlreadyVoted
  | VoterEqualToCandidate
deriving DecidableEq

/-- `Voter { reputation: i128, address: AccountId, available_votes: u128 }`. -/
structure Voter where
  reputation : Int
  address : AccountId
  available_votes : Nat
deriving DecidableEq

/-- Lookup in the `Mapping`, i.e. `self.voters.get(k)`. -/
def mapGet : List (AccountId × Voter) → AccountId → Option Voter
  | [], _ => none
  | (k, v) :: rest, k0 => if k = k0 then some v else mapGet rest k0

/-- `Mapping::insert`: overwrites the binding for the key when present. -/
def mapInsert : List (AccountId × Voter) → AccountId → Voter → List (AccountId × Voter)
  | [], k, v => [(k, v)]
  | (k0, v0) :: rest, k, v =>
    if k0 = k then (k, v) :: rest else (k0, v0) :: mapInsert rest k v

/-- `Mapping::remove`: deletes the binding for the key. -/
def mapRemove : List (AccountId × Voter) → AccountId → List (AccountId × Voter)
  | [], _ => []
  | (k0, v0) :: rest, k =>
    if k0 = k then mapRemove rest k else (k0, v0) :: mapRemove rest k

/-- The contract storage `OptionsAndFutures { voters, voters_addresses, owner }`. -/
structure OptionsAndFutures where
  voters : List (AccountId × Voter)
  voters_addresses : List AccountId
  owner : AccountId
deriving DecidableEq

/-- The constructor `new`: empty mapping, empty address list, caller becomes owner. -/
def new (caller : AccountId) : OptionsAndFutures :=
  { voters := [], voters_addresses := [], owner := caller }

/-- Checked model of `votes.abs() as u128`: `i128::MIN.abs()` overflows i128 and
traps under overflow checks, hence `none` at `i128Min`; otherwise the absolute
value, a non-negative i128, casts to u128 losslessly. -/
def absAsU128 (votes : Int) : Option Nat :=
  if votes = i128Min then none else some votes.natAbs

/-- Checked i128 addition, modelling `candidate.reputation += votes`. -/
def addI128 (a b : Int) : Option Int :=
  if i128Min ≤ a + b ∧ a + b ≤ i128Max then some (a + b) else none

/-- Checked u128 subtraction, modelling `voter.available_votes -= magnitude`. -/
def subU128 (a b : Nat) : Option Nat :=
  if a < b then none else some (a - b)

/-- `add_voter(&mut self, voter, available_votes)`: owner-gated; pushes the address
onto `voters_addresses` and inserts a fresh record, overwriting any existing one. -/
def add_voter (s : OptionsAndFutures) (caller voter : AccountId) (available_votes : Nat) :
    Except Error Unit × OptionsAndFutures :=
  if caller ≠ s.owner then (.error .OnlyOwnerFunction, s)
  else (.ok (), { s with
    voters_addresses := s.voters_addresses ++ [voter],
    voters := mapInsert s.voters voter
      { reputation := 0, address := voter, available_votes := available_votes } })

/-- `vote(&mut self, candidate_address, votes)`: resolves the caller, checks the
budget against the magnitude, checks self-voting against the stored address field,
resolves the candidate, then applies the signed reputation update and the magnitude
debit and writes both records back (candidate first, then caller).  `none` is an
arithmetic trap. -/
def vote (s : OptionsAndFutures) (caller candidate_address : AccountId) (votes : Int) :
    Option (Except Error Unit × OptionsAndFutures) :=
  match mapGet s.voters caller with
  | none => some (.error .UnregisteredVoter, s)
  | some voter =>
    match absAsU128 votes with
    | none => none
    | some magnitude =>
      if voter.available_votes < magnitude then
        some (.error .VoterAlreadyVoted, s)
      else if candidate_address = voter.address then
        some (.error .VoterEqualToCandidate, s)
      else
        match mapGet s.voters candidate_address with
        | none => some (.error .UnregisteredVoter, s)
        | some candidate =>
          match addI128 candidate.reputation votes with
          | none => none
          | some rep =>
            match subU128 voter.available_votes magnitude with
            | none => none
            | some avail =>
              some (.ok (), { s with
                voters := mapInsert
                  (mapInsert s.voters candidate_address
                    { candidate with reputation := rep })
                  caller { voter with available_votes := avail } })

/-- `remove_voter(&mut self, voter_address)`: owner-gated; requires the record to
exist, then deletes it from the mapping only (`voters_addresses` is not touched). -/
def remove_voter (s : OptionsAndFutures) (caller voter_address : AccountId) :
    Except Error Unit × OptionsAndFutures :=
  if caller ≠ s.owner then (.error .OnlyOwnerFunction, s)
  else match mapGet s.voters voter_address with
    | none => (.error .UnregisteredVoter, s)
    | some _ => (.ok (), { s with voters := mapRemove s.voters voter_address })

/-- The loop body of `get_voters`: resolve each enumerated address in order,
failing with `UnregisteredVoter` on the first address with no record. -/
def get_votersGo (voters : List (AccountId × Voter)) : List AccountId → Except Error (List Voter)
  | [] => .ok []
  | a :: rest =>
    match mapGet voters a with
    | none => .error .UnregisteredVoter
    | some v =>
      match get_votersGo voters rest with
      | .error e => .error e
      | .ok vs => .ok (v :: vs)

/-- `get_voters(&self)`: read-only (takes `&self`, so the state is returned as is). -/
def get_voters (s : OptionsAndFutures) : Except Error (List Voter) × OptionsAndFutures :=
  (get_votersGo s.voters s.voters_addresses, s)

/-- One contract call with its explicit arguments and caller. -/
inductive Op where
  | add (caller voter : AccountId) (available_votes : Nat)
  | remove (caller voter_address : AccountId)
  | voteOp (caller candidate_address : AccountId) (votes : Int)
  | list (caller : AccountId)
deriving DecidableEq

/-- The post state of one call; `none` when the call traps. -/
def applyOp (s : OptionsAndFutures) : Op → Option OptionsAndFutures
  | .add c x n => some (add_voter s c x n).2
  | .remove c x => some (remove_voter s c x).2
  | .voteOp c x v => (vote s c x v).map (fun r => r.2)
  | .list _ => some (get_voters s).2

/-- Run a sequence of calls, stopping at a trap. -/
def runOps (s : OptionsAndFutures) : List Op → Option OptionsAndFutures
  | [] => some s
  | op :: rest =>
    match applyOp s op with
    | none => none
    | some s1 => runOps s1 rest

/-- The states reachable from the constructor by contract calls. -/
inductive Reachable : OptionsAndFutures → Prop where
  | init (caller : AccountId) : Reachable (new caller)
  | step {s s1 : OptionsAndFutures} (op : Op) :
      Reachable s → applyOp s op = some s1 → Reachable s1

/-- Every stored record carries, in the `address` field, the key it is stored under. -/
def AddrInv (s : OptionsAndFutures) : Prop :=
  ∀ k v, mapGet s.voters k = some v → v.address = k

theorem mapGet_insert (m : List (AccountId × Voter)) (k k0 : AccountId) (v : Voter) :
    mapGet (mapInsert m k v) k0 = if k = k0 then some v else mapGet m k0 := by
  induction m with
  | nil => simp [mapInsert, mapGet]
  | cons hd tl ih =>
    obtain ⟨a, b⟩ := hd
    by_cases hak : a = k
    · subst hak
      by_cases hk0 : a = k0 <;> simp [mapInsert, mapGet, hk0]
    · by_cases hk0 : a = k0
      · subst hk0
        have hkk0 : ¬ k = a := fun h => hak h.symm
        simp [mapInsert, mapGet, hak, hkk0]
      · simp [mapInsert, mapGet, hak, hk0, ih]

theorem mapGet_remove (m : List (AccountId × Voter)) (k k0 : AccountId) :
    mapGet (mapRemove m k) k0 = if k = k0 then none else mapGet m k0 := by
  induction m with
  | nil => simp [mapRemove, mapGet]
  | cons hd tl ih =>
    obtain ⟨a, b⟩ := hd
    by_cases hak : a = k
    · subst hak
      by_cases hk0 : a = k0
      · subst hk0
        simpa [mapRemove] using ih
      · have : ¬ a = k0 := hk0
        simp [mapRemove, mapGet, this] at ih ⊢
        simpa [this] using ih
    · by_cases hk0 : a = k0
      · subst hk0
        have hkk0 : ¬ k = a := fun h => hak h.symm
        simp [mapRemove, mapGet, hak, hkk0]
      · simp [mapRemove, mapGet, hak, hk0, ih]

theorem get_votersGo_missing (vs : List (AccountId × Voter)) (addrs : List AccountId)
    (x : AccountId) (hx : x ∈ addrs) (hmiss : mapGet vs x = none) :
    get_votersGo vs addrs = .error .UnregisteredVoter := by
  induction addrs with
  | nil => cases hx
  | cons a rest ih =>
    rcases List.mem_cons.mp hx with h | h
    · subst h
      simp [get_votersGo, hmiss]
    · cases hga : mapGet vs a with
      | none => simp [get_votersGo, hga]
      | some v => simp [get_votersGo, hga, ih h]

theorem get_votersGo_resolved (vs : List (AccountId × Voter)) (P : Voter → Prop)
    (addrs : List AccountId)
    (hall : ∀ y ∈ addrs, ∃ vy, mapGet vs y = some vy ∧ P vy) :
    ∃ l, get_votersGo vs addrs = .ok l ∧ ∀ w ∈ l, P w := by
  induction addrs with
  | nil => exact ⟨[], rfl, by simp⟩
  | cons a rest ih =>
    obtain ⟨va1, hva1, hPa⟩ := hall a (List.mem_cons_self a rest)
    obtain ⟨l, hl, hPl⟩ := ih (fun y hy => hall y (List.mem_cons_of_mem a hy))
    refine ⟨va1 :: l, ?_, ?_⟩
    · simp [get_votersGo, hva1, hl]
    · intro w hw
      rcases List.mem_cons.mp hw with h | h
      · subst h; exact hPa
      · exact hPl w h

theorem get_votersGo_append_ok (vs : List (AccountId × Voter)) (xs : List AccountId)
    (l : List Voter) (hxs : get_votersGo vs xs = .ok l) (a : AccountId) (w : Voter)
    (ha : mapGet vs a = some w) :
    get_votersGo vs (xs ++ [a]) = .ok (l ++ [w]) := by
  induction xs generalizing l with
  | nil =>
    simp [get_votersGo] at hxs
    subst hxs
    simp [get_votersGo, ha]
  | cons b rest ih =>
    cases hgb : mapGet vs b with
    | none => simp [get_votersGo, hgb] at hxs
    | some v =>
      cases hrest : get_votersGo vs rest with
      | error e => simp [get_votersGo, hgb, hrest] at hxs
      | ok l1 =>
        simp [get_votersGo, hgb, hrest] at hxs
        subst hxs
        simp [get_votersGo, hgb, ih l1 hrest]

theorem absAsU128_eq (v : Int) (hv : i128Min < v) : absAsU128 v = some v.natAbs := by
  unfold absAsU128
  exact if_neg (ne_of_gt hv)

/-- C6: register and remove called by any caller other than the owner fail with
OnlyOwnerFunction and return the state unchanged. -/
theorem nonowner_register_remove_fail (s : OptionsAndFutures) (c x : AccountId) (n : Nat)
    (hc : c ≠ s.owner) :
    add_voter s c x n = (.error .OnlyOwnerFunction, s)
    ∧ remove_voter s c x = (.error .OnlyOwnerFunction, s) := by
  constructor <;> simp [add_voter, remove_voter, hc]

theorem nonowner_register_remove_fail_witness :
    (1 : AccountId) ≠ (new 0).owner
    ∧ add_voter (new 0) 1 2 3 = (.error .OnlyOwnerFunction, new 0)
    ∧ remove_voter (new 0) 1 2 = (.error .OnlyOwnerFunction, new 0) :=
  ⟨by decide, (nonowner_register_remove_fail (new 0) 1 2 3 (by decide)).1,
    (nonowner_register_remove_fail (new 0) 1 2 3 (by decide)).2⟩

/-- C3: whenever register, remove or vote returns an error, the returned state is
exactly the input state; list takes the state immutably and returns it as is. -/
theorem error_leaves_state_unchanged (s t : OptionsAndFutures) (caller x b : AccountId)
    (n : Nat) (v : Int) (e : Error) :
    (add_voter s caller x n = (.error e, t) → t = s)
    ∧ (remove_voter s caller x = (.error e, t) → t = s)
    ∧ (vote s caller b v = some (.error e, t) → t = s)
    ∧ (get_voters s).2 = s := by
  refine ⟨?_, ?_, ?_, rfl⟩
  · intro h
    unfold add_voter at h
    split at h
    · exact (Prod.mk.injEq _ _ _ _ ▸ h).2.symm
    · exact absurd (Prod.mk.injEq _ _ _ _ ▸ h).1 (by simp)
  · intro h
    unfold remove_voter at h
    split at h
    · exact (Prod.mk.injEq _ _ _ _ ▸ h).2.symm
    · split at h
      · exact (Prod.mk.injEq _ _ _ _ ▸ h).2.symm
      · exact absurd (Prod.mk.injEq _ _ _ _ ▸ h).1 (by simp)
  · intro h
    unfold vote at h
    split at h
    · simp at h
      exact h.2.symm
    · split at h
      · exact absurd h (by simp)
      · split at h
        · simp at h
          exact h.2.symm
        · split at h
          · simp at h
            exact h.2.symm
          · split at h
            · simp at h
              exact h.2.symm
            · split at h
              · exact absurd h (by simp)
              · split at h
                · exact absurd h (by simp)
                · simp at h

theorem error_leaves_state_unchanged_witness :
    add_voter (new 0) 1 2 4 = (.error .OnlyOwnerFunction, new 0)
    ∧ new 0 = new 0 :=
  ⟨by rfl, (error_leaves_state_unchanged (new 0) (new 0) 1 2 3 4 5 .OnlyOwnerFunction).1 (by rfl)⟩

/-- C2 counterexample: a registered voter with budget 0 who votes for themselves with
amount 1 gets VoterAlreadyVoted, not VoterEqualToCandidate, because the budget check
runs before the self-vote check. -/
theorem self_vote_budget_cex :
    mapGet (⟨[(1, ⟨0, 1, 0⟩)], [1], 0⟩ : OptionsAndFutures).voters 1 = some ⟨0, 1, 0⟩
    ∧ vote ⟨[(1, ⟨0, 1, 0⟩)], [1], 0⟩ 1 1 1
        = some (.error .VoterAlreadyVoted, ⟨[(1, ⟨0, 1, 0⟩)], [1], 0⟩)
    ∧ Error.VoterAlreadyVoted ≠ Error.VoterEqualToCandidate :=
  ⟨rfl, rfl, by decide⟩

/-- C2 amended: a self-vote by a registered voter fails with VoterEqualToCandidate
provided the magnitude is within the remaining budget (the budget check runs first)
and the amount is above i128::MIN (the magnitude computation traps there); the stored
address field must match the key, which holds in every reachable state. -/
theorem self_vote_fails (s : OptionsAndFutures) (a : AccountId) (v : Int) (va : Voter)
    (ha : mapGet s.voters a = some va) (haddr : va.address = a)
    (hv : i128Min < v) (hbudget : v.natAbs ≤ va.available_votes) :
    vote s a a v = some (.error .VoterEqualToCandidate, s) := by
  simp only [vote, ha, absAsU128_eq v hv]
  rw [if_neg (Nat.not_lt.mpr hbudget), if_pos haddr.symm]

theorem self_vote_fails_witness :
    mapGet (⟨[(1, ⟨0, 1, 3⟩)], [1], 0⟩ : OptionsAndFutures).voters 1 = some ⟨0, 1, 3⟩
    ∧ (⟨0, 1, 3⟩ : Voter).address = 1
    ∧ i128Min < 2
    ∧ (2 : Int).natAbs ≤ (⟨0, 1, 3⟩ : Voter).available_votes
    ∧ vote ⟨[(1, ⟨0, 1, 3⟩)], [1], 0⟩ 1 1 2
        = some (.error .VoterEqualToCandidate, ⟨[(1, ⟨0, 1, 3⟩)], [1], 0⟩) :=
  ⟨rfl, rfl, by decide, by decide,
    self_vote_fails ⟨[(1, ⟨0, 1, 3⟩)], [1], 0⟩ 1 2 ⟨0, 1, 3⟩ rfl rfl (by decide) (by decide)⟩

/-- C4 counterexample: with a registered caller of budget 0 and amount i128::MIN the
budget is below the magnitude, yet the call traps in the magnitude computation
instead of failing with VoterAlreadyVoted. -/
theorem budget_error_cex :
    mapGet (⟨[(1, ⟨0, 1, 0⟩)], [1], 0⟩ : OptionsAndFutures).voters 1 = some ⟨0, 1, 0⟩
    ∧ (0 : Nat) < i128Min.natAbs
    ∧ vote ⟨[(1, ⟨0, 1, 0⟩)], [1], 0⟩ 1 2 i128Min = none :=
  ⟨rfl, by decide, rfl⟩

/-- C4 amended: for a registered caller and any amount above i128::MIN, the vote
fails with VoterAlreadyVoted, leaving the state unchanged, exactly when the
remaining budget is below the magnitude of the amount. -/
theorem vote_budget_error_iff (s : OptionsAndFutures) (a b : AccountId) (v : Int)
    (va : Voter) (ha : mapGet s.voters a = some va) (hv : i128Min < v) :
    vote s a b v = some (.error .VoterAlreadyVoted, s) ↔ va.available_votes < v.natAbs := by
  simp only [vote, ha, absAsU128_eq v hv]
  constructor
  · intro h
    by_contra hnot
    rw [if_neg hnot] at h
    by_cases hself : b = va.address
    · rw [if_pos hself] at h
      simp at h
    · rw [if_neg hself] at h
      cases hgb : mapGet s.voters b with
      | none => simp [hgb] at h
      | some cand =>
        cases hadd : addI128 cand.reputation v with
        | none => simp [hgb, hadd] at h
        | some rep =>
          cases hsub : subU128 va.available_votes v.natAbs with
          | none => simp [hgb, hadd, hsub] at h
          | some avail => simp [hgb, hadd, hsub] at h
  · intro h
    rw [if_pos h]

theorem vote_budget_error_iff_witness :
    mapGet (⟨[(1, ⟨0, 1, 1⟩)], [1], 0⟩ : OptionsAndFutures).voters 1 = some ⟨0, 1, 1⟩
    ∧ i128Min < 5
    ∧ (vote ⟨[(1, ⟨0, 1, 1⟩)], [1], 0⟩ 1 2 5
        = some (.error .VoterAlreadyVoted, ⟨[(1, ⟨0, 1, 1⟩)], [1], 0⟩)
      ↔ (⟨0, 1, 1⟩ : Voter).available_votes < (5 : Int).natAbs) :=
  ⟨rfl, by decide,
    vote_budget_error_iff ⟨[(1, ⟨0, 1, 1⟩)], [1], 0⟩ 1 2 5 ⟨0, 1, 1⟩ rfl (by decide)⟩

/-- C10 counterexample: in a reachable state with both parties registered, a vote of
i128::MIN traps in the magnitude computation instead of returning a Result. -/
theorem vote_trap_cex :
    Reachable (add_voter (add_voter (new 0) 0 1 5).2 0 2 7).2
    ∧ mapGet ((add_voter (add_voter (new 0) 0 1 5).2 0 2 7).2).voters 1 = some ⟨0, 1, 5⟩
    ∧ mapGet ((add_voter (add_voter (new 0) 0 1 5).2 0 2 7).2).voters 2 = some ⟨0, 2, 7⟩
    ∧ vote (add_voter (add_voter (new 0) 0 1 5).2 0 2 7).2 1 2 i128Min = none :=
  ⟨Reachable.step (Op.add 0 2 7) (Reachable.step (Op.add 0 1 5) (Reachable.init 0) rfl) rfl,
    rfl, rfl, rfl⟩

/-- C10 amended: vote never traps when the amount is above i128::MIN and, whenever
the candidate resolves to a record, its reputation plus the amount stays inside the
i128 bounds; the budget debit is protected by the preceding budget check. -/
theorem vote_no_trap (s : OptionsAndFutures) (a b : AccountId) (v : Int)
    (hv1 : i128Min < v) (hv2 : v ≤ i128Max)
    (hrep : ∀ cand, mapGet s.voters b = some cand →
      i128Min ≤ cand.reputation + v ∧ cand.reputation + v ≤ i128Max) :
    vote s a b v ≠ none := by
  cases hga : mapGet s.voters a with
  | none => simp [vote, hga]
  | some va =>
    simp only [vote, hga, absAsU128_eq v hv1]
    by_cases hb : va.available_votes < v.natAbs
    · rw [if_pos hb]
      simp
    · rw [if_neg hb]
      by_cases hself : b = va.address
      · rw [if_pos hself]
        simp
      · rw [if_neg hself]
        cases hgb : mapGet s.voters b with
        | none => simp [hgb]
        | some cand =>
          have hin := hrep cand hgb
          simp only [hgb, addI128, subU128, if_pos hin, if_neg hb]
          simp

theorem vote_no_trap_witness :
    i128Min < 3
    ∧ (3 : Int) ≤ i128Max
    ∧ (∀ cand,
        mapGet (⟨[(1, ⟨0, 1, 5⟩), (2, ⟨0, 2, 7⟩)], [1, 2], 0⟩ : OptionsAndFutures).voters 2
          = some cand →
        i128Min ≤ cand.reputation + 3 ∧ cand.reputation + 3 ≤ i128Max)
    ∧ vote ⟨[(1, ⟨0, 1, 5⟩), (2, ⟨0, 2, 7⟩)], [1, 2], 0⟩ 1 2 3 ≠ none :=
  ⟨by decide, by decide,
    fun cand hc => by
      simp [mapGet] at hc
      subst hc
      exact ⟨by decide, by decide⟩,
    vote_no_trap ⟨[(1, ⟨0, 1, 5⟩), (2, ⟨0, 2, 7⟩)], [1, 2], 0⟩ 1 2 3 (by decide) (by decide)
      (fun cand hc => by
        simp [mapGet] at hc
        subst hc
        exact ⟨by decide, by decide⟩)⟩

/-- C1 counterexample: both parties registered and distinct, the budget covers the
magnitude, yet the vote traps because the candidate reputation update overflows i128
instead of succeeding with reputation old plus v. -/
theorem vote_success_cex :
    (1 : AccountId) ≠ 2
    ∧ mapGet (⟨[(1, ⟨0, 1, 1⟩), (2, ⟨i128Max, 2, 0⟩)], [1, 2], 0⟩ : OptionsAndFutures).voters 1
        = some ⟨0, 1, 1⟩
    ∧ mapGet (⟨[(1, ⟨0, 1, 1⟩), (2, ⟨i128Max, 2, 0⟩)], [1, 2], 0⟩ : OptionsAndFutures).voters 2
        = some ⟨i128Max, 2, 0⟩
    ∧ (1 : Int).natAbs ≤ (⟨0, 1, 1⟩ : Voter).available_votes
    ∧ vote ⟨[(1, ⟨0, 1, 1⟩), (2, ⟨i128Max, 2, 0⟩)], [1, 2], 0⟩ 1 2 1 = none :=
  ⟨by decide, rfl, rfl, by decide, rfl⟩

/-- C1 amended: for distinct registered a and b with sufficient budget, the vote
succeeds and adds v to the reputation of b and debits the magnitude from the budget
of a, leaving all other records, the enumeration sequence and the owner unchanged —
provided v is above i128::MIN, the reputation of b plus v stays inside the i128
bounds, and the stored record of a carries a as its address (true in every
reachable state). -/
theorem vote_success (s : OptionsAndFutures) (a b : AccountId) (v : Int) (va vb : Voter)
    (hab : a ≠ b)
    (ha : mapGet s.voters a = some va) (haddr : va.address = a)
    (hb : mapGet s.voters b = some vb)
    (hv1 : i128Min < v) (hv2 : v ≤ i128Max)
    (hbudget : v.natAbs ≤ va.available_votes)
    (hrep1 : i128Min ≤ vb.reputation + v) (hrep2 : vb.reputation + v ≤ i128Max) :
    ∃ s1, vote s a b v = some (.ok (), s1)
      ∧ mapGet s1.voters b = some { vb with reputation := vb.reputation + v }
      ∧ mapGet s1.voters a = some { va with available_votes := va.available_votes - v.natAbs }
      ∧ (∀ y, y ≠ a → y ≠ b → mapGet s1.voters y = mapGet s.voters y)
      ∧ s1.voters_addresses = s.voters_addresses
      ∧ s1.owner = s.owner := by
  simp only [vote, ha, absAsU128_eq v hv1]
  rw [if_neg (Nat.not_lt.mpr hbudget)]
  have hself : ¬ b = va.address := by
    rw [haddr]
    exact fun h => hab h.symm
  rw [if_neg hself]
  simp only [hb, addI128, subU128, if_pos (And.intro hrep1 hrep2),
    if_neg (Nat.not_lt.mpr hbudget)]
  refine ⟨_, rfl, ?_, ?_, ?_, rfl, rfl⟩
  · rw [mapGet_insert, if_neg hab, mapGet_insert, if_pos rfl]
  · rw [mapGet_insert, if_pos rfl]
  · intro y hya hyb
    rw [mapGet_insert, if_neg (fun h => hya h.symm), mapGet_insert, if_neg (fun h => hyb h.symm)]

theorem vote_success_witness :
    (1 : AccountId) ≠ 2
    ∧ mapGet (⟨[(1, ⟨0, 1, 10⟩), (2, ⟨5, 2, 4⟩)], [1, 2], 0⟩ : OptionsAndFutures).voters 1
        = some ⟨0, 1, 10⟩
    ∧ (⟨0, 1, 10⟩ : Voter).address = 1
    ∧ mapGet (⟨[(1, ⟨0, 1, 10⟩), (2, ⟨5, 2, 4⟩)], [1, 2], 0⟩ : OptionsAndFutures).voters 2
        = some ⟨5, 2, 4⟩
    ∧ i128Min < 3
    ∧ (3 : Int) ≤ i128Max
    ∧ (3 : Int).natAbs ≤ (⟨0, 1, 10⟩ : Voter).available_votes
    ∧ i128Min ≤ (⟨5, 2, 4⟩ : Voter).reputation + 3
    ∧ (⟨5, 2, 4⟩ : Voter).reputation + 3 ≤ i128Max
    ∧ ∃ s1, vote ⟨[(1, ⟨0, 1, 10⟩), (2, ⟨5, 2, 4⟩)], [1, 2], 0⟩ 1 2 3 = some (.ok (), s1)
        ∧ mapGet s1.voters 2 = some ⟨8, 2, 4⟩
        ∧ mapGet s1.voters 1 = some ⟨0, 1, 7⟩
        ∧ (∀ y, y ≠ 1 → y ≠ 2 →
            mapGet s1.voters y
              = mapGet (⟨[(1, ⟨0, 1, 10⟩), (2, ⟨5, 2, 4⟩)], [1, 2], 0⟩ : OptionsAndFutures).voters y)
        ∧ s1.voters_addresses = [1, 2]
        ∧ s1.owner = 0 :=
  ⟨by decide, rfl, rfl, rfl, by decide, by decide, by decide, by decide, by decide,
    vote_success ⟨[(1, ⟨0, 1, 10⟩), (2, ⟨5, 2, 4⟩)], [1, 2], 0⟩ 1 2 3 ⟨0, 1, 10⟩ ⟨5, 2, 4⟩
      (by decide) rfl rfl rfl (by decide) (by decide) (by decide) (by decide) (by decide)⟩

/-- C7: owner removal of a registered, enumerated voter deletes the mapping record,
keeps every other record, leaves the enumeration sequence and the owner untouched,
and a subsequent list call fails with UnregisteredVoter instead of returning a
partial result. -/
theorem remove_keeps_stale_enumeration (s : OptionsAndFutures) (x : AccountId) (vx : Voter)
    (hx : mapGet s.voters x = some vx) (hmem : x ∈ s.voters_addresses) :
    (remove_voter s s.owner x).1 = .ok ()
    ∧ mapGet ((remove_voter s s.owner x).2).voters x = none
    ∧ (∀ y, y ≠ x → mapGet ((remove_voter s s.owner x).2).voters y = mapGet s.voters y)
    ∧ ((remove_voter s s.owner x).2).voters_addresses = s.voters_addresses
    ∧ ((remove_voter s s.owner x).2).owner = s.owner
    ∧ (get_voters (remove_voter s s.owner x).2).1 = .error .UnregisteredVoter := by
  have hrm : remove_voter s s.owner x = (.ok (), { s with voters := mapRemove s.voters x }) := by
    unfold remove_voter
    rw [if_neg (fun h => h rfl), hx]
  rw [hrm]
  refine ⟨rfl, ?_, ?_, rfl, rfl, ?_⟩
  · rw [mapGet_remove, if_pos rfl]
  · intro y hy
    rw [mapGet_remove, if_neg (fun h => hy h.symm)]
  · exact get_votersGo_missing _ _ x hmem (by rw [mapGet_remove, if_pos rfl])

theorem remove_keeps_stale_enumeration_witness :
    mapGet (⟨[(1, ⟨0, 1, 5⟩)], [1], 0⟩ : OptionsAndFutures).voters 1 = some ⟨0, 1, 5⟩
    ∧ (1 : AccountId) ∈ (⟨[(1, ⟨0, 1, 5⟩)], [1], 0⟩ : OptionsAndFutures).voters_addresses
    ∧ (remove_voter ⟨[(1, ⟨0, 1, 5⟩)], [1], 0⟩ 0 1).1 = .ok ()
    ∧ mapGet ((remove_voter ⟨[(1, ⟨0, 1, 5⟩)], [1], 0⟩ 0 1).2).voters 1 = none
    ∧ (get_voters (remove_voter ⟨[(1, ⟨0, 1, 5⟩)], [1], 0⟩ 0 1).2).1
        = .error .UnregisteredVoter :=
  ⟨rfl, by decide,
    (remove_keeps_stale_enumeration ⟨[(1, ⟨0, 1, 5⟩)], [1], 0⟩ 1 ⟨0, 1, 5⟩ rfl (by decide)).1,
    (remove_keeps_stale_enumeration ⟨[(1, ⟨0, 1, 5⟩)], [1], 0⟩ 1 ⟨0, 1, 5⟩ rfl (by decide)).2.1,
    (remove_keeps_stale_enumeration ⟨[(1, ⟨0, 1, 5⟩)], [1], 0⟩ 1 ⟨0, 1, 5⟩ rfl
      (by decide)).2.2.2.2.2⟩

/-- C8 counterexample: in a reachable state holding a stale enumeration entry, the
owner registers a fresh identity, and the subsequent list call fails with
UnregisteredVoter rather than succeeding with one record for the new identity. -/
theorem register_then_list_cex :
    Reachable (remove_voter (add_voter (new 0) 0 1 5).2 0 1).2
    ∧ mapGet ((remove_voter (add_voter (new 0) 0 1 5).2 0 1).2).voters 2 = none
    ∧ (add_voter (remove_voter (add_voter (new 0) 0 1 5).2 0 1).2 0 2 7).1 = .ok ()
    ∧ (get_voters (add_voter (remove_voter (add_voter (new 0) 0 1 5).2 0 1).2 0 2 7).2).1
        = .error .UnregisteredVoter :=
  ⟨Reachable.step (Op.remove 0 1) (Reachable.step (Op.add 0 1 5) (Reachable.init 0) rfl) rfl,
    rfl, rfl, rfl⟩

/-- C8 amended: when the owner registers an identity that has no record, does not
occur in the enumeration sequence, and every enumerated identity currently resolves
to a record carrying its own key as address, the registration succeeds and a
subsequent list succeeds, containing exactly one record for the new identity, with
reputation 0 and the given budget, appended after the previously enumerated
records. -/
theorem register_then_list (s : OptionsAndFutures) (a : AccountId) (n : Nat)
    (hnew : mapGet s.voters a = none)
    (hnotmem : a ∉ s.voters_addresses)
    (hall : ∀ y ∈ s.voters_addresses, ∃ vy, mapGet s.voters y = some vy ∧ vy.address = y) :
    (add_voter s s.owner a n).1 = .ok ()
    ∧ ∃ l, (get_voters (add_voter s s.owner a n).2).1
        = .ok (l ++ [{ reputation := 0, address := a, available_votes := n }])
      ∧ ∀ w ∈ l, w.address ≠ a := by
  have hadd : add_voter s s.owner a n = (.ok (), { s with
      voters_addresses := s.voters_addresses ++ [a],
      voters := mapInsert s.voters a ⟨0, a, n⟩ }) := by
    unfold add_voter
    rw [if_neg (fun h => h rfl)]
  rw [hadd]
  refine ⟨rfl, ?_⟩
  have hins : ∀ y ∈ s.voters_addresses, ∃ vy,
      mapGet (mapInsert s.voters a ⟨0, a, n⟩) y = some vy ∧ vy.address ≠ a := by
    intro y hy
    obtain ⟨vy, hvy, haddry⟩ := hall y hy
    have hya : ¬ a = y := by
      intro h
      subst h
      exact hnotmem hy
    refine ⟨vy, ?_, ?_⟩
    · rw [mapGet_insert, if_neg hya, hvy]
    · rw [haddry]
      exact fun h => hya h.symm
  obtain ⟨l, hl, hP⟩ := get_votersGo_resolved _ (fun w => w.address ≠ a) _ hins
  refine ⟨l, ?_, hP⟩
  exact get_votersGo_append_ok _ _ l hl a _ (by rw [mapGet_insert, if_pos rfl])

theorem register_then_list_witness :
    mapGet (new 0).voters 1 = none
    ∧ (1 : AccountId) ∉ (new 0).voters_addresses
    ∧ (∀ y ∈ (new 0).voters_addresses,
        ∃ vy, mapGet (new 0).voters y = some vy ∧ vy.address = y)
    ∧ ((add_voter (new 0) 0 1 5).1 = .ok ()
      ∧ ∃ l, (get_voters (add_voter (new 0) 0 1 5).2).1
          = .ok (l ++ [{ reputation := 0, address := 1, available_votes := 5 }])
        ∧ ∀ w ∈ l, w.address ≠ 1) :=
  ⟨rfl, by simp [new], by simp [new],
    register_then_list (new 0) 1 5 rfl (by simp [new]) (by simp [new])⟩

theorem avail_step (s s1 : OptionsAndFutures) (op : Op) (aid : AccountId) (va1 : Voter)
    (hop : applyOp s op = some s1)
    (hnota : ∀ c n, op ≠ Op.add c aid n)
    (hafter : mapGet s1.voters aid = some va1) :
    ∃ va, mapGet s.voters aid = some va ∧ va1.available_votes ≤ va.available_votes := by
  cases op with
  | add c x n =>
    have hx : ¬ x = aid := fun h => hnota c n (by rw [h])
    simp only [applyOp, Option.some.injEq] at hop
    subst hop
    unfold add_voter at hafter
    split at hafter
    · exact ⟨va1, hafter, le_refl _⟩
    · simp only [mapGet_insert, if_neg hx] at hafter
      exact ⟨va1, hafter, le_refl _⟩
  | remove c x =>
    simp only [applyOp, Option.some.injEq] at hop
    subst hop
    unfold remove_voter at hafter
    split at hafter
    · exact ⟨va1, hafter, le_refl _⟩
    · split at hafter
      · exact ⟨va1, hafter, le_refl _⟩
      · simp only [mapGet_remove] at hafter
        split at hafter
        · cases hafter
        · exact ⟨va1, hafter, le_refl _⟩
  | list c =>
    simp only [applyOp, Option.some.injEq] at hop
    subst hop
    exact ⟨va1, hafter, le_refl _⟩
  | voteOp c b v =>
    simp only [applyOp, Option.map_eq_some'] at hop
    obtain ⟨r, hr, hs1⟩ := hop
    subst hs1
    unfold vote at hr
    split at hr
    · injection hr with hr
      subst hr
      exact ⟨va1, hafter, le_refl _⟩
    · rename_i voter hvoter
      split at hr
      · cases hr
      · rename_i magnitude hmag
        split at hr
        · injection hr with hr
          subst hr
          exact ⟨va1, hafter, le_refl _⟩
        · split at hr
          · injection hr with hr
            subst hr
            exact ⟨va1, hafter, le_refl _⟩
          · split at hr
            · injection hr with hr
              subst hr
              exact ⟨va1, hafter, le_refl _⟩
            · rename_i cand hcand
              split at hr
              · cases hr
              · rename_i rep hrep
                split at hr
                · cases hr
                · rename_i avail havail
                  injection hr with hr
                  subst hr
                  have havail2 : avail = voter.available_votes - magnitude := by
                    unfold subU128 at havail
                    split at havail
                    · cases havail
                    · injection havail with havail
                      exact havail.symm
                  simp only [mapGet_insert] at hafter
                  by_cases hc : c = aid
                  · rw [if_pos hc] at hafter
                    injection hafter with hafter
                    refine ⟨voter, hc ▸ hvoter, ?_⟩
                    rw [← hafter]
                    calc ({ voter with available_votes := avail } : Voter).available_votes
                        = avail := rfl
                      _ = voter.available_votes - magnitude := havail2
                      _ ≤ voter.available_votes := Nat.sub_le _ _
                  · rw [if_neg hc] at hafter
                    by_cases hb : b = aid
                    · rw [if_pos hb] at hafter
                      injection hafter with hafter
                      refine ⟨cand, hb ▸ hcand, ?_⟩
                      rw [← hafter]
                    · rw [if_neg hb] at hafter
                      exact ⟨va1, hafter, le_refl _⟩

theorem runOps_avail (ops : List Op) (aid : AccountId) :
    ∀ s s1 va1, runOps s ops = some s1 →
      (∀ c n, Op.add c aid n ∉ ops) →
      mapGet s1.voters aid = some va1 →
      ∃ va, mapGet s.voters aid = some va ∧ va1.available_votes ≤ va.available_votes := by
  induction ops with
  | nil =>
    intro s s1 va1 hrun _ hafter
    simp only [runOps, Option.some.injEq] at hrun
    subst hrun
    exact ⟨va1, hafter, le_refl _⟩
  | cons op rest ih =>
    intro s s1 va1 hrun hnota hafter
    unfold runOps at hrun
    cases hstep : applyOp s op with
    | none => rw [hstep] at hrun; cases hrun
    | some sm =>
      rw [hstep] at hrun
      obtain ⟨vm, hvm, hle1⟩ := ih sm s1 va1 hrun
        (fun c n hmem => hnota c n (List.mem_cons_of_mem op hmem)) hafter
      obtain ⟨va, hva, hle2⟩ := avail_step s sm op aid vm hstep
        (fun c n heq => hnota c n (heq ▸ List.mem_cons_self op rest)) hvm
      exact ⟨va, hva, le_trans hle1 hle2⟩

/-- C5 amended: across any sequence of calls that contains no registration of the
given identity, the available_votes recorded for that identity never increases;
re-registering the identity overwrites the record and can reset the budget to any
value, so registrations of that identity are excluded. -/
theorem available_votes_monotone (s s1 : OptionsAndFutures) (ops : List Op)
    (aid : AccountId) (va va1 : Voter)
    (hrun : runOps s ops = some s1)
    (hnota : ∀ c n, Op.add c aid n ∉ ops)
    (hbefore : mapGet s.voters aid = some va)
    (hafter : mapGet s1.voters aid = some va1) :
    va1.available_votes ≤ va.available_votes := by
  obtain ⟨va0, h0, hle⟩ := runOps_avail ops aid s s1 va1 hrun hnota hafter
  rw [hbefore] at h0
  injection h0 with h0
  rw [h0]
  exact hle

theorem available_votes_monotone_witness :
    runOps ⟨[(1, ⟨0, 1, 5⟩), (2, ⟨0, 2, 7⟩)], [1, 2], 0⟩ [Op.voteOp 1 2 2]
        = some ⟨[(1, ⟨0, 1, 3⟩), (2, ⟨2, 2, 7⟩)], [1, 2], 0⟩
    ∧ mapGet (⟨[(1, ⟨0, 1, 5⟩), (2, ⟨0, 2, 7⟩)], [1, 2], 0⟩ : OptionsAndFutures).voters 1
        = some ⟨0, 1, 5⟩
    ∧ mapGet (⟨[(1, ⟨0, 1, 3⟩), (2, ⟨2, 2, 7⟩)], [1, 2], 0⟩ : OptionsAndFutures).voters 1
        = some ⟨0, 1, 3⟩
    ∧ (⟨0, 1, 3⟩ : Voter).available_votes ≤ (⟨0, 1, 5⟩ : Voter).available_votes :=
  ⟨rfl, rfl, rfl,
    available_votes_monotone ⟨[(1, ⟨0, 1, 5⟩), (2, ⟨0, 2, 7⟩)], [1, 2], 0⟩
      ⟨[(1, ⟨0, 1, 3⟩), (2, ⟨2, 2, 7⟩)], [1, 2], 0⟩ [Op.voteOp 1 2 2] 1 ⟨0, 1, 5⟩ ⟨0, 1, 3⟩
      rfl (fun c n h => by simp at h) rfl rfl⟩

/-- C5 counterexample: the owner re-registers an already registered identity with a
larger budget; the recorded available_votes rises from 5 to 10 across that call. -/
theorem available_votes_increase_cex :
    mapGet ((add_voter (new 0) 0 1 5).2).voters 1 = some ⟨0, 1, 5⟩
    ∧ runOps (add_voter (new 0) 0 1 5).2 [Op.add 0 1 10]
        = some (add_voter (add_voter (new 0) 0 1 5).2 0 1 10).2
    ∧ mapGet ((add_voter (add_voter (new 0) 0 1 5).2 0 1 10).2).voters 1 = some ⟨0, 1, 10⟩
    ∧ ¬ ((10 : Nat) ≤ 5) :=
  ⟨rfl, rfl, rfl, by decide⟩

theorem addrInv_new (c : AccountId) : AddrInv (new c) := by
  intro k v h
  simp [new, mapGet] at h

theorem addrInv_step (s s1 : OptionsAndFutures) (op : Op) (hinv : AddrInv s)
    (hop : applyOp s op = some s1) : AddrInv s1 := by
  cases op with
  | add c x n =>
    simp only [applyOp, Option.some.injEq] at hop
    subst hop
    intro k v h
    unfold add_voter at h
    split at h
    · exact hinv k v h
    · simp only [mapGet_insert] at h
      split at h
      · rename_i hxk
        injection h with h
        subst h
        exact hxk
      · exact hinv k v h
  | remove c x =>
    simp only [applyOp, Option.some.injEq] at hop
    subst hop
    intro k v h
    unfold remove_voter at h
    split at h
    · exact hinv k v h
    · split at h
      · exact hinv k v h
      · simp only [mapGet_remove] at h
        split at h
        · cases h
        · exact hinv k v h
  | list c =>
    simp only [applyOp, Option.some.injEq] at hop
    subst hop
    intro k v h
    exact hinv k v h
  | voteOp c b v =>
    simp only [applyOp, Option.map_eq_some'] at hop
    obtain ⟨r, hr, hs1⟩ := hop
    subst hs1
    unfold vote at hr
    split at hr
    · injection hr with hr
      subst hr
      exact hinv
    · rename_i voter hvoter
      split at hr
      · cases hr
      · split at hr
        · injection hr with hr
          subst hr
          exact hinv
        · split at hr
          · injection hr with hr
            subst hr
            exact hinv
          · split at hr
            · injection hr with hr
              subst hr
              exact hinv
            · rename_i cand hcand
              split at hr
              · cases hr
              · split at hr
                · cases hr
                · injection hr with hr
                  subst hr
                  intro k w h
                  simp only [mapGet_insert] at h
                  split at h
                  · rename_i hck
                    injection h with h
                    subst h
                    calc ({ voter with available_votes := _ } : Voter).address
                        = voter.address := rfl
                      _ = c := hinv c voter hvoter
                      _ = k := hck
                  · split at h
                    · rename_i hbk
                      injection h with h
                      subst h
                      calc ({ cand with reputation := _ } : Voter).address
                          = cand.address := rfl
                        _ = b := hinv b cand hcand
                        _ = k := hbk
                    · exact hinv k w h

theorem reachable_addrInv_aux (s : OptionsAndFutures) (h : Reachable s) : AddrInv s := by
  induction h with
  | init c => exact addrInv_new c
  | step op hs hop ih => exact addrInv_step _ _ op ih hop

/-- C9: in every reachable state each stored record carries, as its address field,
the key it is stored under; consequently the self-vote check, which compares the
candidate identity against the address field of the resolved caller record, agrees
with comparing against the caller identity itself. -/
theorem reachable_address_inv (s : OptionsAndFutures) (b c : AccountId) (va : Voter)
    (h : Reachable s) :
    AddrInv s
    ∧ (mapGet s.voters c = some va → ((b = va.address) ↔ b = c)) := by
  have hinv := reachable_addrInv_aux s h
  refine ⟨hinv, fun hc => ?_⟩
  rw [hinv c va hc]

theorem reachable_address_inv_witness :
    Reachable (add_voter (new 0) 0 1 5).2
    ∧ AddrInv (add_voter (new 0) 0 1 5).2
    ∧ (mapGet ((add_voter (new 0) 0 1 5).2).voters 1 = some ⟨0, 1, 5⟩ →
        ((2 = (⟨0, 1, 5⟩ : Voter).address) ↔ 2 = 1)) :=
  ⟨Reachable.step (Op.add 0 1 5) (Reachable.init 0) rfl,
    (reachable_address_inv (add_voter (new 0) 0 1 5).2 2 1 ⟨0, 1, 5⟩
      (Reachable.step (Op.add 0 1 5) (Reachable.init 0) rfl)).1,
    (reachable_address_inv (add_voter (new 0) 0 1 5).2 2 1 ⟨0, 1, 5⟩
      (Reachable.step (Op.add 0 1 5) (Reachable.init 0) rfl)).2⟩

